import Mathlib

/-
Verification of the vector math, matrix builders, render procedure and
input handler of WebGLViewer3 (src/script.js), shallowly embedded over
the exact reals.  JS numbers are modelled as real numbers; for the
claims about non-finite results of division by zero, a second
finiteness-tracking model of division (jdiv, returning none exactly when
the JS division would produce Infinity, -Infinity or NaN from a zero
denominator) is used.
-/

namespace WebGLViewer3

/-- A 3-component vector: the embedding of a JS length-3 number array. -/
structure Vec3 where
  x : ℝ
  y : ℝ
  z : ℝ

/-- A homogeneous 4-component point, as built by the vertex shader. -/
structure Vec4 where
  x : ℝ
  y : ℝ
  z : ℝ
  w : ℝ

/-- A 4x4 matrix stored as 16 scalars in column-major order, the
embedding of the Float32Array of 16 elements the matrix builders
return: entry mi is the element at index i of the array. -/
structure Mat4 where
  m0 : ℝ
  m1 : ℝ
  m2 : ℝ
  m3 : ℝ
  m4 : ℝ
  m5 : ℝ
  m6 : ℝ
  m7 : ℝ
  m8 : ℝ
  m9 : ℝ
  m10 : ℝ
  m11 : ℝ
  m12 : ℝ
  m13 : ℝ
  m14 : ℝ
  m15 : ℝ

noncomputable section

/-- Embedding of `subtract(a, b)`: componentwise difference. -/
def subtract (a b : Vec3) : Vec3 :=
  ⟨a.x - b.x, a.y - b.y, a.z - b.z⟩

/-- Embedding of `cross(a, b)`. -/
def cross (a b : Vec3) : Vec3 :=
  ⟨a.y * b.z - a.z * b.y,
   a.z * b.x - a.x * b.z,
   a.x * b.y - a.y * b.x⟩

/-- Embedding of `dot(a, b)`. -/
def dot (a b : Vec3) : ℝ :=
  a.x * b.x + a.y * b.y + a.z * b.z

/-- The local `len` computed inside `normalize(v)`:
Math.sqrt(v[0] ** 2 + v[1] ** 2 + v[2] ** 2). -/
def len (v : Vec3) : ℝ :=
  Real.sqrt (v.x ^ 2 + v.y ^ 2 + v.z ^ 2)

/-- Embedding of `normalize(v)`: v.map(x => x / len), over the exact
reals.  (Lean real division by zero yields 0; the JS non-finite
behaviour at len = 0 is captured separately by normalizeF.) -/
def normalize (v : Vec3) : Vec3 :=
  ⟨v.x / len v, v.y / len v, v.z / len v⟩

/-- JS floating-point division tracked for finiteness: some (a / b) for
a nonzero denominator, none when the denominator is zero, where JS
produces a non-finite value (Infinity, -Infinity or NaN). -/
def jdiv (a b : ℝ) : Option ℝ :=
  if b = 0 then none else some (a / b)

/-- The finiteness-tracking model of `normalize(v)`: each component is
the JS division v[i] / len. -/
def normalizeF (v : Vec3) : Option ℝ × Option ℝ × Option ℝ :=
  (jdiv v.x (len v), jdiv v.y (len v), jdiv v.z (len v))

/-- The local zAxis of `lookAt`: normalize(subtract(eye, at)). -/
def zAxisOf (eye atV : Vec3) : Vec3 :=
  normalize (subtract eye atV)

/-- The local xAxis of `lookAt`: normalize(cross(up, zAxis)). -/
def xAxisOf (eye atV up : Vec3) : Vec3 :=
  normalize (cross up (zAxisOf eye atV))

/-- The local yAxis of `lookAt`: cross(zAxis, xAxis). -/
def yAxisOf (eye atV up : Vec3) : Vec3 :=
  cross (zAxisOf eye atV) (xAxisOf eye atV up)

/-- Embedding of `lookAt(eye, at, up)`: the 16-element column-major
array it returns, element by element. -/
def lookAt (eye atV up : Vec3) : Mat4 :=
  ⟨(xAxisOf eye atV up).x, (yAxisOf eye atV up).x, (zAxisOf eye atV).x, 0,
   (xAxisOf eye atV up).y, (yAxisOf eye atV up).y, (zAxisOf eye atV).y, 0,
   (xAxisOf eye atV up).z, (yAxisOf eye atV up).z, (zAxisOf eye atV).z, 0,
   -dot (xAxisOf eye atV up) eye, -dot (yAxisOf eye atV up) eye,
     -dot (zAxisOf eye atV) eye, 1⟩

/-- Embedding of `ortho(left, right, bottom, top, near, far)`: the
16-element column-major array it returns, over the exact reals. -/
def ortho (left right bottom top near far : ℝ) : Mat4 :=
  ⟨2 / (right - left), 0, 0, 0,
   0, 2 / (top - bottom), 0, 0,
   0, 0, -2 / (far - near), 0,
   -(right + left) / (right - left), -(top + bottom) / (top - bottom),
     -(far + near) / (far - near), 1⟩

/-- The finiteness-tracking model of `ortho`: entry i of the array,
with every division routed through jdiv and every literal finite. -/
def orthoF (left right bottom top near far : ℝ) (i : Fin 16) : Option ℝ :=
  match i.val with
  | 0 => jdiv 2 (right - left)
  | 5 => jdiv 2 (top - bottom)
  | 10 => jdiv (-2) (far - near)
  | 12 => jdiv (-(right + left)) (right - left)
  | 13 => jdiv (-(top + bottom)) (top - bottom)
  | 14 => jdiv (-(far + near)) (far - near)
  | 15 => some 1
  | _ => some 0

/-- Application of a column-major Mat4 to a homogeneous point, as the
vertex shader computes M * vec4: output component i is the dot product
of row i (elements i, i+4, i+8, i+12 of the array) with the point. -/
def applyMat4 (m : Mat4) (v : Vec4) : Vec4 :=
  ⟨m.m0 * v.x + m.m4 * v.y + m.m8 * v.z + m.m12 * v.w,
   m.m1 * v.x + m.m5 * v.y + m.m9 * v.z + m.m13 * v.w,
   m.m2 * v.x + m.m6 * v.y + m.m10 * v.z + m.m14 * v.w,
   m.m3 * v.x + m.m7 * v.y + m.m11 * v.z + m.m15 * v.w⟩

/-- Homogeneous divide of a clip-space point by its w component. -/
def homogDiv (v : Vec4) : Vec4 :=
  ⟨v.x / v.w, v.y / v.w, v.z / v.w, v.w / v.w⟩

/-- Scaling of a vector by a scalar (used to state that normalize
returns v scaled by 1 / length). -/
def scale (c : ℝ) (v : Vec3) : Vec3 :=
  ⟨c * v.x, c * v.y, c * v.z⟩

/-- The mutable camera state of the script: the zoom scalar and the
eye, at and up vectors. -/
structure CameraState where
  zoom : ℝ
  eye : Vec3
  atV : Vec3
  up : Vec3

/-- The state after the top-level declarations
`let zoom = 5; const eye = [0, 0, zoom]; const at = [0, 0, 0];
const up = [0, 1, 0];`. -/
def initialState : CameraState :=
  ⟨5, ⟨0, 0, 5⟩, ⟨0, 0, 0⟩, ⟨0, 1, 0⟩⟩

/-- The two matrices `render` computes from the current camera state:
lookAt(eye, at, up) and ortho(-zoom, zoom, -zoom, zoom, -10, 10). -/
def renderMatrices (s : CameraState) : Mat4 × Mat4 :=
  (lookAt s.eye s.atV s.up,
   ortho (-s.zoom) s.zoom (-s.zoom) s.zoom (-10) 10)

/-- One invocation of `render()`: the body assigns to none of zoom,
eye, at, up, so the camera state passes through unchanged, and the
invocation produces the uploaded modelView and projection matrices. -/
def renderStep (s : CameraState) : CameraState × (Mat4 × Mat4) :=
  (s, renderMatrices s)

/-- The projection matrix built inside `render` as a function of the
current zoom: ortho(-zoom, zoom, -zoom, zoom, -10, 10). -/
def renderProjection (zoom : ℝ) : Mat4 :=
  ortho (-zoom) zoom (-zoom) zoom (-10) 10

/-- The finiteness-tracking projection matrix built inside `render`. -/
def renderProjectionF (zoom : ℝ) : Fin 16 → Option ℝ :=
  orthoF (-zoom) zoom (-zoom) zoom (-10) 10

/-- The slider input handler: zoom = parseFloat(event.target.value);
eye[2] = zoom; render().  The argument v is the parsed float value. -/
def oninput (s : CameraState) (v : ℝ) : CameraState × (Mat4 × Mat4) :=
  renderStep { s with zoom := v, eye := ⟨s.eye.x, s.eye.y, v⟩ }

end

/-- Length of the positive z-axis vector (0, 0, z) for nonnegative z. -/
lemma len_unitZ (z : ℝ) (hz : 0 ≤ z) : len ⟨0, 0, z⟩ = z := by
  rw [len, show (0 : ℝ) ^ 2 + 0 ^ 2 + z ^ 2 = z ^ 2 by ring]
  exact Real.sqrt_sq hz

/-- Length of the unit x vector. -/
lemma len_unitX : len ⟨1, 0, 0⟩ = 1 := by
  rw [len, show (1 : ℝ) ^ 2 + 0 ^ 2 + 0 ^ 2 = 1 by ring, Real.sqrt_one]

/-- For an eye on the positive z axis looking at the origin with up
(0, 1, 0), lookAt is the identity rotation with translation row
(0, 0, -z, 1). -/
lemma lookAt_posZ (z : ℝ) (hz : 0 < z) :
    lookAt ⟨0, 0, z⟩ ⟨0, 0, 0⟩ ⟨0, 1, 0⟩ =
      ⟨1, 0, 0, 0, 0, 1, 0, 0, 0, 0, 1, 0, 0, 0, -z, 1⟩ := by
  have hz0 : z ≠ 0 := ne_of_gt hz
  have hsub : subtract ⟨0, 0, z⟩ ⟨0, 0, 0⟩ = ⟨0, 0, z⟩ := by
    simp [subtract]
  have hzA : zAxisOf ⟨0, 0, z⟩ ⟨0, 0, 0⟩ = ⟨0, 0, 1⟩ := by
    rw [zAxisOf, hsub, normalize, len_unitZ z hz.le]
    norm_num [Vec3.mk.injEq, div_self hz0]
  have hcross : cross ⟨0, 1, 0⟩ (⟨0, 0, 1⟩ : Vec3) = ⟨1, 0, 0⟩ := by
    norm_num [cross, Vec3.mk.injEq]
  have hxA : xAxisOf ⟨0, 0, z⟩ ⟨0, 0, 0⟩ ⟨0, 1, 0⟩ = ⟨1, 0, 0⟩ := by
    rw [xAxisOf, hzA, hcross, normalize, len_unitX]
    norm_num [Vec3.mk.injEq]
  have hyA : yAxisOf ⟨0, 0, z⟩ ⟨0, 0, 0⟩ ⟨0, 1, 0⟩ = ⟨0, 1, 0⟩ := by
    rw [yAxisOf, hzA, hxA]
    norm_num [cross, Vec3.mk.injEq]
  rw [lookAt, hzA, hxA, hyA]
  norm_num [dot, Mat4.mk.injEq]

/-- Claim C5: cross(a, b) is orthogonal to both arguments:
dot(cross(a, b), a) = 0 and dot(cross(a, b), b) = 0 in exact
arithmetic. -/
theorem cross_orthogonal (a b : Vec3) :
    dot (cross a b) a = 0 ∧ dot (cross a b) b = 0 := by
  constructor <;> · simp only [dot, cross]; ring

/-- Claim C1 (counterexample): ortho(-1, 1, -1, 1, -10, 10) does not
map the homogeneous point (1, 1, 10, 1) to (1, 1, 1, 1) after
homogeneous divide: the z component comes out as -1. -/
theorem ortho_far_point_not_plus_one :
    homogDiv (applyMat4 (ortho (-1) 1 (-1) 1 (-10) 10) ⟨1, 1, 10, 1⟩) ≠
      (⟨1, 1, 1, 1⟩ : Vec4) := by
  intro h
  have hz := congrArg Vec4.z h
  simp only [ortho, applyMat4, homogDiv] at hz
  norm_num at hz

/-- Claim C1 (amended): ortho(-1, 1, -1, 1, -10, 10), applied in the
column-major layout the code produces, maps (0, 0, 0, 1) to
(0, 0, 0, 1) and maps (1, 1, 10, 1) to (1, 1, -1, 1) after homogeneous
divide. -/
theorem ortho_point_images :
    applyMat4 (ortho (-1) 1 (-1) 1 (-10) 10) ⟨0, 0, 0, 1⟩ =
        (⟨0, 0, 0, 1⟩ : Vec4) ∧
      homogDiv (applyMat4 (ortho (-1) 1 (-1) 1 (-10) 10) ⟨1, 1, 10, 1⟩) =
        (⟨1, 1, -1, 1⟩ : Vec4) := by
  constructor <;>
    · simp only [ortho, applyMat4, homogDiv, Vec4.mk.injEq]
      norm_num

/-- Claim C2 (counterexample): at zoom 5 the projection matrix render
builds is not the orthographic cube with all six bounds at the zoom
value: its near and far planes stay at -10 and 10, so entry 10
differs. -/
theorem renderProjection_not_zoom_cube :
    renderProjection 5 ≠ ortho (-5) 5 (-5) 5 (-5) 5 := by
  intro h
  have h10 := congrArg Mat4.m10 h
  simp only [renderProjection, ortho] at h10
  norm_num at h10

/-- Claim C2 (amended): for every nonzero zoom, render builds the
projection ortho(-zoom, zoom, -zoom, zoom, -10, 10) — x and y bounds
at the zoom value but near and far fixed at -10 and 10 — whose matrix
is the diagonal (1/zoom, 1/zoom, -1/10) with final column
(0, 0, 0, 1). -/
theorem renderProjection_entries (z : ℝ) (hz : z ≠ 0) :
    renderProjection z =
      ⟨1 / z, 0, 0, 0, 0, 1 / z, 0, 0, 0, 0, -(1 / 10), 0, 0, 0, 0, 1⟩ := by
  have h2 : z - -z = 2 * z := by ring
  have h0 : -(z + -z) = 0 := by ring
  simp only [renderProjection, ortho, h2, h0, Mat4.mk.injEq]
  norm_num
  field_simp

/-- Witness for renderProjection_entries at zoom 5. -/
theorem renderProjection_entries_witness :
    renderProjection 5 =
      ⟨1 / 5, 0, 0, 0, 0, 1 / 5, 0, 0, 0, 0, -(1 / 10), 0, 0, 0, 0, 1⟩ :=
  renderProjection_entries 5 (by norm_num)

/-- Claim C3 (counterexample): the input handler can set zoom to -1
(parseFloat of a negative slider value), and there the rotation basis
of the view matrix is not the identity: xAxis is (-1, 0, 0). -/
theorem lookAt_basis_not_identity_neg :
    (oninput initialState (-1)).1.eye = (⟨0, 0, -1⟩ : Vec3) ∧
      xAxisOf ⟨0, 0, -1⟩ ⟨0, 0, 0⟩ ⟨0, 1, 0⟩ ≠ (⟨1, 0, 0⟩ : Vec3) := by
  refine ⟨rfl, ?_⟩
  have hsub : subtract ⟨0, 0, -1⟩ ⟨0, 0, 0⟩ = (⟨0, 0, -1⟩ : Vec3) := by
    norm_num [subtract, Vec3.mk.injEq]
  have hlen : len ⟨0, 0, -1⟩ = 1 := by
    rw [len, show (0 : ℝ) ^ 2 + 0 ^ 2 + (-1) ^ 2 = 1 by ring, Real.sqrt_one]
  have hzA : zAxisOf ⟨0, 0, -1⟩ ⟨0, 0, 0⟩ = (⟨0, 0, -1⟩ : Vec3) := by
    rw [zAxisOf, hsub, normalize, hlen]
    norm_num [Vec3.mk.injEq]
  have hcross : cross ⟨0, 1, 0⟩ (⟨0, 0, -1⟩ : Vec3) = (⟨-1, 0, 0⟩ : Vec3) := by
    norm_num [cross, Vec3.mk.injEq]
  have hlen2 : len ⟨-1, 0, 0⟩ = 1 := by
    rw [len, show (-1 : ℝ) ^ 2 + 0 ^ 2 + 0 ^ 2 = 1 by ring, Real.sqrt_one]
  rw [xAxisOf, hzA, hcross, normalize, hlen2]
  intro h
  have hx := congrArg Vec3.x h
  norm_num at hx

/-- Claim C3 (amended): for every positive zoom the rotation basis of
the view matrix recomputed by render is the identity basis and only
the translation entry -zoom changes with zoom, and up is not parallel
to the eye-to-at direction (their cross product is nonzero); for
nonpositive zoom this fails. -/
theorem lookAt_basis_identity_posZoom (z : ℝ) (hz : 0 < z) :
    lookAt ⟨0, 0, z⟩ ⟨0, 0, 0⟩ ⟨0, 1, 0⟩ =
        (⟨1, 0, 0, 0, 0, 1, 0, 0, 0, 0, 1, 0, 0, 0, -z, 1⟩ : Mat4) ∧
      cross ⟨0, 1, 0⟩ (subtract ⟨0, 0, 0⟩ ⟨0, 0, z⟩) ≠ (⟨0, 0, 0⟩ : Vec3) := by
  refine ⟨lookAt_posZ z hz, ?_⟩
  intro h
  have hx := congrArg Vec3.x h
  simp only [cross, subtract] at hx
  norm_num at hx
  exact hz.ne hx.symm

/-- Witness for lookAt_basis_identity_posZoom at zoom 5. -/
theorem lookAt_basis_identity_posZoom_witness :
    lookAt ⟨0, 0, 5⟩ ⟨0, 0, 0⟩ ⟨0, 1, 0⟩ =
        (⟨1, 0, 0, 0, 0, 1, 0, 0, 0, 0, 1, 0, 0, 0, -5, 1⟩ : Mat4) ∧
      cross ⟨0, 1, 0⟩ (subtract ⟨0, 0, 0⟩ ⟨0, 0, 5⟩) ≠ (⟨0, 0, 0⟩ : Vec3) :=
  lookAt_basis_identity_posZoom 5 (by norm_num)

/-- Claim C4: for a vector of nonzero length, normalize returns a unit
vector equal to the input scaled by the reciprocal of its length; at
length zero every component of the result is a non-finite JS value. -/
theorem normalize_spec (v : Vec3) :
    (len v ≠ 0 →
      len (normalize v) = 1 ∧ normalize v = scale (1 / len v) v) ∧
    (len v = 0 → normalizeF v = (none, none, none)) := by
  constructor
  · intro h
    have hS : 0 ≤ v.x ^ 2 + v.y ^ 2 + v.z ^ 2 := by positivity
    have hL2 : len v ^ 2 = v.x ^ 2 + v.y ^ 2 + v.z ^ 2 := Real.sq_sqrt hS
    constructor
    · have key : (v.x / len v) ^ 2 + (v.y / len v) ^ 2 + (v.z / len v) ^ 2 = 1 := by
        field_simp
        linarith [hL2]
      calc len (normalize v)
          = Real.sqrt ((v.x / len v) ^ 2 + (v.y / len v) ^ 2 + (v.z / len v) ^ 2) := rfl
        _ = Real.sqrt 1 := by rw [key]
        _ = 1 := Real.sqrt_one
    · simp only [normalize, scale, Vec3.mk.injEq]
      refine ⟨by ring, by ring, by ring⟩
  · intro h
    simp [normalizeF, jdiv, h]

/-- Length of the vector (3, 4, 0). -/
lemma len_three_four_zero : len ⟨3, 4, 0⟩ = 5 := by
  rw [len, show (3 : ℝ) ^ 2 + 4 ^ 2 + 0 ^ 2 = 5 ^ 2 by ring]
  exact Real.sqrt_sq (by norm_num)

/-- Witness for normalize_spec at the vector (3, 4, 0) of length 5. -/
theorem normalize_spec_witness :
    len (normalize ⟨3, 4, 0⟩) = 1 ∧
      normalize ⟨3, 4, 0⟩ = scale (1 / len ⟨3, 4, 0⟩) ⟨3, 4, 0⟩ :=
  (normalize_spec ⟨3, 4, 0⟩).1 (by rw [len_three_four_zero]; norm_num)

/-- Claim C6: lookAt with eye (0, 0, 5), at the origin and up
(0, 1, 0) returns the column-major matrix with identity rotation and
last row (0, 0, -5, 1). -/
theorem lookAt_eye5 :
    lookAt ⟨0, 0, 5⟩ ⟨0, 0, 0⟩ ⟨0, 1, 0⟩ =
      (⟨1, 0, 0, 0, 0, 1, 0, 0, 0, 0, 1, 0, 0, 0, -5, 1⟩ : Mat4) :=
  lookAt_posZ 5 (by norm_num)

/-- Claim C7: at zoom 0 the projection matrix render builds,
ortho(0, 0, 0, 0, -10, 10), has non-finite entries from division by
zero: exactly the entries at indices 0, 5, 12 and 13. -/
theorem renderProjection_zero_nonfinite (i : Fin 16) :
    renderProjectionF 0 i = none ↔
      i.val = 0 ∨ i.val = 5 ∨ i.val = 12 ∨ i.val = 13 := by
  fin_cases i <;> norm_num [renderProjectionF, orthoF, jdiv] <;>
    exact Option.some_ne_none _

/-- Witness for renderProjection_zero_nonfinite at index 0. -/
theorem renderProjection_zero_nonfinite_witness :
    renderProjectionF 0 0 = none :=
  (renderProjection_zero_nonfinite 0).mpr (Or.inl rfl)

/-- Claim C8: the slider handler sets zoom to the parsed value, sets
exactly the z component of eye to it, leaves at, up and the x and y
components of eye unchanged, and synchronously renders from the
updated state; a render invocation never mutates the camera state. -/
theorem oninput_effect (s : CameraState) (v : ℝ) :
    (oninput s v).1.zoom = v ∧
    (oninput s v).1.eye = (⟨s.eye.x, s.eye.y, v⟩ : Vec3) ∧
    (oninput s v).1.atV = s.atV ∧
    (oninput s v).1.up = s.up ∧
    (oninput s v).2 = renderMatrices (oninput s v).1 ∧
    (renderStep s).1 = s :=
  ⟨rfl, rfl, rfl, rfl, rfl, rfl⟩

/-- Claim C9: render leaves the camera state unchanged and its two
matrices are a function of that state alone, so a second invocation
with no intervening input produces the same state and matrices. -/
theorem render_idempotent (s : CameraState) :
    (renderStep s).1 = s ∧
    renderStep (renderStep s).1 = renderStep s ∧
    (renderStep s).2 =
      (lookAt s.eye s.atV s.up,
        ortho (-s.zoom) s.zoom (-s.zoom) s.zoom (-10) 10) :=
  ⟨rfl, rfl, rfl⟩

/-- Claim C10: for all inputs, the lookAt matrix is affine in the
column-major layout: entries 3, 7 and 11 are 0 and entry 15 is 1, so
applying it preserves the homogeneous w component of every point. -/
theorem lookAt_affine (eye atV up : Vec3) :
    (lookAt eye atV up).m3 = 0 ∧ (lookAt eye atV up).m7 = 0 ∧
    (lookAt eye atV up).m11 = 0 ∧ (lookAt eye atV up).m15 = 1 ∧
    ∀ p : Vec4, (applyMat4 (lookAt eye atV up) p).w = p.w := by
  refine ⟨rfl, rfl, rfl, rfl, fun p => ?_⟩
  show 0 * p.x + 0 * p.y + 0 * p.z + 1 * p.w = p.w
  ring

end WebGLViewer3
